import Mathlib

/-!
Verification of the `kernel_dev_tools` repository: a shallow embedding in Lean 4
of the configuration / command-runner / parsing logic of
`kdt_utils.py`, `kernel_builder.py`, `get_ip.py` and `git_format_patch.py`,
together with theorems settling the frozen claims about it.

Python strings are modelled as `String` where only whole-value operations occur,
and as `List Char` where character-level slicing matters.  `sys.exit(msg)` is
modelled as `Except.error msg`; normal return as `Except.ok`.  External effects
(subprocess launches, `os.path.exists`) are passed in as explicit parameters.
-/

/-- Python truthiness of a string: `bool(s)` is `True` iff `s` is non-empty. -/
def pyBool (s : String) : Bool := !(s == "")

/-- Python `s[:-1]` on a string (drop the final character; empty stays empty). -/
def pySliceLast (l : List Char) : List Char := l.take (l.length - 1)

/-- Lookup in an association list, modelling `name in section` / `section[name]`
for a parsed INI section or an environment dictionary. -/
def dictLookup (sect : List (String × String)) (name : String) : Option String :=
  (sect.find? (fun p => p.1 == name)).map (fun p => p.2)

/-- Does `pat` occur at the start of `l`?  (Python `s.startswith`, used to build
the substring test.) -/
def startsWith : List Char → List Char → Bool
  | [], _ => true
  | _ :: _, [] => false
  | p :: ps, c :: cs => p == c && startsWith ps cs

/-- Python's substring test `pat in l` on strings. -/
def hasSub (pat : List Char) : List Char → Bool
  | [] => startsWith pat []
  | c :: rest => startsWith pat (c :: rest) || hasSub pat rest

/-- Python's substring test on `String`s. -/
def pyIn (pat s : String) : Bool := hasSub pat.toList s.toList

-- ------------------------------------------------------------------
-- kdt_utils.py / BashCommands: the command runner
-- ------------------------------------------------------------------

/-- Outcome of handing an argument vector to the OS process launcher
(`subprocess.run`): the executable may be missing, or the process completes
with an exit code and captured output. -/
inductive LaunchOutcome where
  | notFound
  | completed (rc : Int) (stdout stderr : List Char)

/-- `BashCommands.print_command`: in debug mode it echoes the command and
returns the `_exec` half of `debug_type`; otherwise it returns `True`.
(The echoed text, including the ssh-option rewrite, is display-only.) -/
def print_command (debug : Bool) (debug_type : Bool × Bool) : Bool :=
  if debug then debug_type.2 else true

/-- `BashCommands.kdt_run`: prepends `sudo` when asked, honours debug mode, and
maps both `FileNotFoundError` and `CalledProcessError` to a `False` return;
otherwise reports `returncode == 0`.  It never terminates the process, so its
result is always `Except.ok`. -/
def kdt_run (debug : Bool) (debug_type : Bool × Bool) (sudoFlag : Bool) (check : Bool)
    (launch : LaunchOutcome) (command : List String) : Except String Bool :=
  let _command := if sudoFlag then "sudo" :: command else command
  if !(print_command debug debug_type) then .ok true
  else
    match launch with
    | .notFound => .ok false
    | .completed rc _ _ =>
        if check && rc != 0 then .ok false else .ok (rc == 0)

/-- `BashCommands.kdt_run_str`: like `kdt_run` but captures output.  A missing
executable terminates the program with `FAIL: <command>`; a `check=True`
non-zero exit terminates with the captured stderr; otherwise it returns
`(returncode == 0, stdout[:-1], stderr[:-1])`. -/
def kdt_run_str (debug : Bool) (debug_type : Bool × Bool) (sudoFlag : Bool) (check : Bool)
    (launch : LaunchOutcome) (command : List String) :
    Except String (Bool × List Char × List Char) :=
  let command := if sudoFlag then "sudo" :: command else command
  if !(print_command debug debug_type) then .ok (true, [], [])
  else
    match launch with
    | .notFound => .error ("FAIL: " ++ String.intercalate " " command)
    | .completed rc out err =>
        if check && rc != 0 then .error (String.mk err)
        else .ok (rc == 0, pySliceLast out, pySliceLast err)

-- ------------------------------------------------------------------
-- kernel_builder.py / BoardConfig: build-target selection (C4)
-- ------------------------------------------------------------------

/-- `BoardConfig.__init__` build-target selection: start from
`[kernel_target, "modules"]` and append `"dtbs"` when any of `dtb_path`,
`vendor`, `overlay_path` is truthy. -/
def build_target (kernel_target dtb_path vendor overlay_path : String) : List String :=
  let targets := [kernel_target, "modules"]
  if pyBool dtb_path || pyBool vendor || pyBool overlay_path then
    targets ++ ["dtbs"]
  else
    targets

-- ------------------------------------------------------------------
-- Theorems: C2, C10, C4
-- ------------------------------------------------------------------

/-- C2 counterexample: with a missing executable (`FileNotFoundError`),
`kdt_run` returns the failure value `False` to its caller instead of
terminating the program, refuting the claim for `kdt_run`. -/
theorem kdt_run_notFound_returns_false :
    kdt_run false (false, true) false false LaunchOutcome.notFound ["mount"] =
      Except.ok false := rfl

/-- C2 amended: on a missing executable, `kdt_run_str` terminates the whole
program with the diagnostic `FAIL: <command>`, while `kdt_run` instead returns
the failure value `False` to its caller without terminating. -/
theorem missing_executable_behaviour (command : List String) (sudoFlag check : Bool)
    (debug_type : Bool × Bool) :
    kdt_run_str false debug_type sudoFlag check LaunchOutcome.notFound command =
      Except.error ("FAIL: " ++
        String.intercalate " " (if sudoFlag then "sudo" :: command else command)) ∧
    kdt_run false debug_type sudoFlag check LaunchOutcome.notFound command =
      Except.ok false := by
  constructor <;> simp [kdt_run_str, kdt_run, print_command]

/-- C10: for every completed command, `kdt_run_str` returns stdout and stderr
with their final character unconditionally removed (`[:-1]`): the empty output
stays empty, and any non-empty output — newline-terminated or not — loses
exactly its last character. -/
theorem kdt_run_str_drops_last_char (debug_type : Bool × Bool) (sudoFlag : Bool)
    (command : List String) (rc : Int) (out err : List Char) :
    kdt_run_str false debug_type sudoFlag false (LaunchOutcome.completed rc out err) command =
      Except.ok (rc == 0, List.dropLast out, List.dropLast err) ∧
    (out = [] → List.dropLast out = []) ∧
    (out ≠ [] → (List.dropLast out).length + 1 = out.length) := by
  refine ⟨?_, ?_, ?_⟩
  · simp [kdt_run_str, print_command, pySliceLast, List.dropLast_eq_take]
  · intro h; simp [h]
  · intro hne
    have : out.length ≠ 0 := by simpa using (List.length_pos.mpr hne).ne'
    simp [List.length_dropLast]
    omega

/-- C10 witness: on the newline-free output `"abc"` the returned stdout has lost
its last meaningful character. -/
theorem kdt_run_str_drops_last_char_witness :
    kdt_run_str false (false, true) false false
        (LaunchOutcome.completed 0 "abc".toList "x".toList) ["echo"] =
      Except.ok (true, List.dropLast "abc".toList, List.dropLast "x".toList) ∧
    (List.dropLast "abc".toList).length + 1 = "abc".toList.length :=
  ⟨(kdt_run_str_drops_last_char (false, true) false ["echo"] 0 "abc".toList "x".toList).1,
   (kdt_run_str_drops_last_char (false, true) false ["echo"] 0 "abc".toList "x".toList).2.2
     (by decide)⟩

/-- C4 counterexample: a board with an empty device-tree path but a non-empty
`vendor` still gets the `"dtbs"` build target, so it does not get
`[kernel_target, "modules"]` as the claim states. -/
theorem build_target_vendor_counterexample :
    build_target "Image" "" "broadcom" "" = ["Image", "modules", "dtbs"] ∧
    build_target "Image" "" "broadcom" "" ≠ ["Image", "modules"] := by
  constructor <;> decide

/-- C4 amended: `"dtbs"` is appended exactly when any of `dtb_path`, `vendor`,
`overlay_path` is non-empty; in particular a non-empty device-tree path yields
`[kernel_target, "modules", "dtbs"]`, and a board with all three empty yields
`[kernel_target, "modules"]`. -/
theorem build_target_selection (kernel_target dtb_path vendor overlay_path : String) :
    (dtb_path ≠ "" →
      build_target kernel_target dtb_path vendor overlay_path =
        [kernel_target, "modules", "dtbs"]) ∧
    ((dtb_path ≠ "" ∨ vendor ≠ "" ∨ overlay_path ≠ "") →
      build_target kernel_target dtb_path vendor overlay_path =
        [kernel_target, "modules", "dtbs"]) ∧
    (dtb_path = "" ∧ vendor = "" ∧ overlay_path = "" →
      build_target kernel_target dtb_path vendor overlay_path =
        [kernel_target, "modules"]) := by
  refine ⟨?_, ?_, ?_⟩
  · intro h
    simp [build_target, pyBool, h]
  · rintro (h | h | h) <;> simp [build_target, pyBool, h]
  · rintro ⟨h1, h2, h3⟩
    simp [build_target, pyBool, h1, h2, h3]

/-- C4 witness. -/
theorem build_target_selection_witness :
    build_target "bzImage" "broadcom/dts" "" "" = ["bzImage", "modules", "dtbs"] :=
  (build_target_selection "bzImage" "broadcom/dts" "" "").1 (by decide)

-- ------------------------------------------------------------------
-- kernel_builder.py / BoardConfig: kernel-config source selection (C1)
-- ------------------------------------------------------------------

/-- `kdt_utils.get_config`: returns `section[name]` when present, exits for a
missing mandatory key, and returns `""` for a missing optional key. -/
def get_config (sect : List (String × String)) (name : String) (mandatory : Bool) :
    Except String String :=
  match dictLookup sect name with
  | some v => .ok v
  | none =>
      if mandatory then
        .error ("Error! Missing \"" ++ name ++ "\" in board configuration section")
      else .ok ""

/-- Fuel-driven helper for Python `str.replace` (left-to-right, non-overlapping;
only ever called with the non-empty pattern `"$kdt_boards"`). -/
def replaceAllAux (pat rep : List Char) : Nat → List Char → List Char
  | 0, l => l
  | _ + 1, [] => []
  | fuel + 1, c :: rest =>
      if startsWith pat (c :: rest) then
        rep ++ replaceAllAux pat rep fuel ((c :: rest).drop pat.length)
      else
        c :: replaceAllAux pat rep fuel rest

/-- Python `s.replace(pat, rep)`. -/
def pyReplace (s pat rep : String) : String :=
  String.mk (replaceAllAux pat.toList rep.toList s.toList.length s.toList)

/-- The `build_params` entries written by `BoardConfig.select_kernel_config`:
which configuration source was chosen and the stored target/file values. -/
structure KernelConfigSel where
  config_to_use : Option String
  config_target : Option String
  config_file : Option String
deriving DecidableEq

/-- `BoardConfig.select_kernel_config`: reads the three configuration-source
settings first from the environment, then from the board section; an xor-chain
guards against multiple sources, then each truthy source writes its
`build_params` entries in turn (checking `os.path.exists` for `config_file`).
No source anywhere is an error. -/
def select_kernel_config (bash_env board_section : List (String × String))
    (kdt_boards : String) (pathExists : String → Bool) :
    Except String KernelConfigSel := do
  let config_target ← get_config bash_env "config_target" false
  let config_file ← get_config bash_env "config_file" false
  let config_gz ← get_config bash_env "config_gz" false
  let mut params : KernelConfigSel := ⟨none, none, none⟩
  if pyBool config_target || pyBool config_file || pyBool config_gz then
    if !(Bool.xor (Bool.xor (pyBool config_target) (pyBool config_file)) (pyBool config_gz)) then
      throw "Error! More than one kernel config is set"
    if pyBool config_target then
      params := { params with
                  config_to_use := some "config_target", config_target := some config_target }
    if pyBool config_file then
      params := { params with config_to_use := some "config_file" }
      if !(pathExists config_file) then
        throw ("Error! File " ++ config_file ++ " doesn't exist.")
      params := { params with config_file := some config_file }
    if pyBool config_gz then
      params := { params with config_to_use := some "config_gz" }
    return params
  let config_target ← get_config board_section "config_target" false
  let config_file ← get_config board_section "config_file" false
  let config_gz ← get_config board_section "config_gz" false
  if pyBool config_target || pyBool config_file || pyBool config_gz then
    if !(Bool.xor (Bool.xor (pyBool config_target) (pyBool config_file)) (pyBool config_gz)) then
      throw "Error! More than one kernel config is set"
    if pyBool config_target then
      params := { params with
                  config_to_use := some "config_target", config_target := some config_target }
    if pyBool config_file then
      params := { params with config_to_use := some "config_file" }
      let config_file := pyReplace config_file "$kdt_boards" kdt_boards
      if !(pathExists config_file) then
        throw ("Error! File " ++ config_file ++ " doesn't exist.")
      params := { params with config_file := some config_file }
    if pyBool config_gz then
      params := { params with config_to_use := some "config_gz" }
    return params
  throw "Error! No config options are set."

/-- C1: with all three configuration sources set to non-empty values in the
environment (and the named config file existing), the xor-chain
`a ^ b ^ c` evaluates to true, so `select_kernel_config` does not raise the
"More than one kernel config is set" error: it returns normally with
`config_to_use = "config_gz"`, contradicting the intended
exactly-one-source invariant (the source's own comment reads "only one set"). -/
theorem select_kernel_config_all_three_set :
    select_kernel_config
        [("config_target", "defconfig"), ("config_file", "/tmp/cfg"), ("config_gz", "y")]
        [] "" (fun _ => true) =
      Except.ok ⟨some "config_gz", some "defconfig", some "/tmp/cfg"⟩ := rfl

-- ------------------------------------------------------------------
-- kernel_builder.py: board registry and arch auto-selection (C3)
-- ------------------------------------------------------------------

/-- Splitting a `<board>_<arch>` section name at its first underscore
(`board_section.index('_')` raises `ValueError` when absent). -/
def splitBoardSection (s : String) : Except String (String × String) :=
  let cs := s.toList
  if cs.contains '_' then
    .ok (String.mk (cs.takeWhile (fun c => !(c == '_'))),
         String.mk ((cs.dropWhile (fun c => !(c == '_'))).drop 1))
  else .error "ValueError: substring not found"

/-- One step of `available_configured_boards`: append the arch to an existing
board entry, or add a new board entry. -/
def addBoardArch (acc : List (String × List String)) (board arch : String) :
    List (String × List String) :=
  if (acc.find? (fun p => p.1 == board)).isSome then
    acc.map (fun p => if p.1 == board then (p.1, p.2 ++ [arch]) else p)
  else acc ++ [(board, [arch])]

/-- `available_configured_boards`: builds the board → arch-list dictionary from
the section names of the boards file. -/
def available_configured_boards (sections : List String) :
    Except String (List (String × List String)) :=
  sections.foldlM
    (fun acc s => do
      let ba ← splitBoardSection s
      return addBoardArch acc ba.1 ba.2)
    []

/-- Lookup in the board → arch-list dictionary. -/
def boardsLookup (d : List (String × List String)) (b : String) : Option (List String) :=
  (d.find? (fun p => p.1 == b)).map (fun p => p.2)

/-- `BoardConfig.set_arch`: an exported `arch` is validated against the board's
arch list; otherwise a single-entry list selects its element, else the literal
`"x86_64"` when `"x86_64"` or `"x86"` is present, else the literal `"arm64"`. -/
def set_arch (available : List (String × List String)) (board_name : String)
    (bash_env : List (String × String)) : Except String String :=
  match dictLookup bash_env "arch" with
  | some exported_arch =>
      match boardsLookup available board_name with
      | none => .error "KeyError"
      | some archs =>
          if !(archs.contains exported_arch) then
            .error ("Error! Arch \"" ++ exported_arch ++ "\" not configured for " ++ board_name)
          else .ok exported_arch
  | none =>
      match boardsLookup available board_name with
      | none => .error "KeyError"
      | some archs =>
          if archs.length == 1 then
            match archs with
            | a :: _ => .ok a
            | [] => .error "IndexError"
          else
            if archs.contains "x86_64" || archs.contains "x86" then .ok "x86_64"
            else .ok "arm64"

/-- C3 counterexample: a board configured for exactly `{x86, arm64}` with no
exported arch makes `set_arch` select the literal `"x86_64"`, which is not a
member of the board's configured arch set. -/
theorem set_arch_not_member_counterexample :
    available_configured_boards ["pine_x86", "pine_arm64"] =
      Except.ok [("pine", ["x86", "arm64"])] ∧
    set_arch [("pine", ["x86", "arm64"])] "pine" [] = Except.ok "x86_64" ∧
    ("x86_64" ∈ ["x86", "arm64"] → False) := ⟨rfl, rfl, by decide⟩

/-- C3 amended: with no arch in the environment, `set_arch` selects the single
arch when the board has exactly one; otherwise it selects the literal string
`"x86_64"` whenever `"x86_64"` or `"x86"` is present in the board's arch set
(even when only `"x86"` is configured), and the literal `"arm64"` otherwise —
in the multi-arch cases the selected value need not be a member of the set. -/
theorem set_arch_auto_selection (available : List (String × List String))
    (board_name : String) (bash_env : List (String × String)) (archs : List String)
    (henv : dictLookup bash_env "arch" = none)
    (havail : boardsLookup available board_name = some archs) :
    (∀ a, archs = [a] → set_arch available board_name bash_env = Except.ok a) ∧
    (archs.length ≠ 1 → (archs.contains "x86_64" || archs.contains "x86") = true →
        set_arch available board_name bash_env = Except.ok "x86_64") ∧
    (archs.length ≠ 1 → (archs.contains "x86_64" || archs.contains "x86") = false →
        set_arch available board_name bash_env = Except.ok "arm64") := by
  refine ⟨?_, ?_, ?_⟩
  · rintro a rfl
    simp [set_arch, henv, havail]
  · intro hlen hmem
    simp only [set_arch, henv, havail]
    rw [if_neg (by simpa using hlen), if_pos hmem]
  · intro hlen hmem
    simp only [set_arch, henv, havail]
    rw [if_neg (by simpa using hlen)]
    have hmem' : ¬ "x86_64" ∈ archs ∧ ¬ "x86" ∈ archs := by simpa using hmem
    simp [hmem'.1, hmem'.2]

/-- C3 amended witness: a two-arch board without any x86 flavour selects
`"arm64"`. -/
theorem set_arch_auto_selection_witness :
    set_arch [("db410c", ["arm", "mips"])] "db410c" [] = Except.ok "arm64" :=
  (set_arch_auto_selection [("db410c", ["arm", "mips"])] "db410c" [] ["arm", "mips"]
    rfl rfl).2.2 (by decide) (by decide)

-- ------------------------------------------------------------------
-- kdt_utils.py: the ~/.kdt config store (C9)
-- ------------------------------------------------------------------

/-- A parsed INI section: key/value string pairs. -/
abbrev ConfigSection := List (String × String)

/-- A parsed INI file: named sections (unique names, in file order). -/
abbrev ConfigFile := List (String × ConfigSection)

/-- `configparser`-style section assignment `kdt_config[section_name] = section`:
replace the named section in place, or append it (section names are unique in a
parsed file). -/
def setSection : ConfigFile → String → ConfigSection → ConfigFile
  | [], name, sec => [(name, sec)]
  | p :: rest, name, sec =>
      if p.1 == name then (name, sec) :: rest
      else p :: setSection rest name sec

/-- Section lookup in a parsed INI file. -/
def lookupSection (cfg : ConfigFile) (name : String) : Option ConfigSection :=
  (cfg.find? (fun p => p.1 == name)).map (fun p => p.2)

/-- `kdt_utils.kdt_update_section`: read the existing `~/.kdt` file when present
(`none` models an absent file, read as empty), assign the named section, and
write the whole file back. -/
def kdt_update_section (state : Option ConfigFile) (name : String)
    (sec : ConfigSection) : Option ConfigFile :=
  some (setSection (state.getD []) name sec)

/-- Section assignment stores the new section under its name. -/
theorem lookupSection_setSection_same (cfg : ConfigFile) (name : String)
    (sec : ConfigSection) :
    lookupSection (setSection cfg name sec) name = some sec := by
  induction cfg with
  | nil => simp [setSection, lookupSection, List.find?]
  | cons p rest ih =>
      by_cases h : p.1 == name
      · simp [setSection, h, lookupSection, List.find?]
      · simpa [setSection, h, lookupSection, List.find?] using ih

/-- Section assignment leaves every other section untouched. -/
theorem lookupSection_setSection_other (cfg : ConfigFile) (name other : String)
    (sec : ConfigSection) (h : other ≠ name) :
    lookupSection (setSection cfg name sec) other = lookupSection cfg other := by
  induction cfg with
  | nil =>
      simp [setSection, lookupSection, List.find?,
        show (name == other) = false from by simpa using fun e => h e.symm]
  | cons p rest ih =>
      by_cases hp : p.1 == name
      · have hpn : p.1 = name := by simpa using hp
        simp [setSection, hp, lookupSection, List.find?,
          show (name == other) = false from by simpa using fun e => h e.symm, hpn]
      · by_cases ho : p.1 == other
        · simp [setSection, hp, lookupSection, List.find?, ho]
        · simpa [setSection, hp, lookupSection, List.find?, ho] using ih

/-- C9: `kdt_update_section` always produces a file (creating it when absent),
in which the named section maps exactly to the new key/value pairs and every
other section still maps to its previous pairs. -/
theorem kdt_update_section_frame (state : Option ConfigFile) (name : String)
    (sec : ConfigSection) :
    (kdt_update_section state name sec).isSome ∧
    (∀ cfg', kdt_update_section state name sec = some cfg' →
      lookupSection cfg' name = some sec ∧
      ∀ other, other ≠ name →
        lookupSection cfg' other = lookupSection (state.getD []) other) := by
  refine ⟨rfl, ?_⟩
  rintro cfg' h
  have : cfg' = setSection (state.getD []) name sec := by
    simpa [kdt_update_section] using h.symm
  subst this
  exact ⟨lookupSection_setSection_same _ _ _,
    fun other ho => lookupSection_setSection_other _ _ _ _ ho⟩

/-- C9 witness: overwriting section `"get_ip"` in a file that also holds
`"kernel_builder"` keeps the latter intact and stores the new pairs. -/
theorem kdt_update_section_frame_witness :
    lookupSection (setSection [("kernel_builder", [("kdt_build", "/b")])]
        "get_ip" [("rpi", "aa:bb")]) "get_ip" = some [("rpi", "aa:bb")] ∧
    lookupSection (setSection [("kernel_builder", [("kdt_build", "/b")])]
        "get_ip" [("rpi", "aa:bb")]) "kernel_builder" = some [("kdt_build", "/b")] := by
  have h := kdt_update_section_frame (some [("kernel_builder", [("kdt_build", "/b")])])
    "get_ip" [("rpi", "aa:bb")]
  exact ⟨(h.2 _ rfl).1, ((h.2 _ rfl).2 "kernel_builder" (by decide)).trans rfl⟩

-- ------------------------------------------------------------------
-- git_format_patch.py: stripping Gerrit Change-Id lines (C7)
-- ------------------------------------------------------------------

/-- The Gerrit trailer prefix stripped by `git_format_patch.py`. -/
def changeId : List Char := "Change-Id:".toList

/-- The rewrite loop of `remove_change_id`: a line is written back unless its
first `len("Change-Id:")` characters equal `"Change-Id:"`. -/
def removeChangeIdLines : List (List Char) → List (List Char)
  | [] => []
  | line :: rest =>
      if line.take changeId.length ≠ changeId then line :: removeChangeIdLines rest
      else removeChangeIdLines rest

/-- `git_format_patch.remove_change_id`: a missing patch file is left alone;
otherwise the file is rewritten through the Change-Id filter loop. -/
def remove_change_id (fileExists : Bool) (patch_lines : List (List Char)) :
    List (List Char) :=
  if fileExists then removeChangeIdLines patch_lines else patch_lines

/-- The rewrite loop is exactly a filter: every non-Change-Id line is kept,
unchanged and in order, and every Change-Id line is dropped. -/
theorem removeChangeIdLines_eq_filter (ls : List (List Char)) :
    removeChangeIdLines ls =
      ls.filter (fun l => !(l.take changeId.length == changeId)) := by
  induction ls with
  | nil => rfl
  | cons l rest ih =>
      by_cases h : l.take changeId.length = changeId
      · simp [removeChangeIdLines, h, ih]
      · simp [removeChangeIdLines, h, ih]

/-- Generic counting fact: keeping the non-`p` elements drops exactly the `p`
count. -/
theorem length_filter_not_add_countP {α : Type} (p : α → Bool) (ls : List α) :
    (ls.filter (fun a => !(p a))).length + ls.countP p = ls.length := by
  induction ls with
  | nil => rfl
  | cons a rest ih =>
      by_cases h : p a = true
      · simp [List.countP_cons, h]
        omega
      · simp [List.countP_cons, h]
        omega

/-- C7: rewriting an existing patch file removes exactly the lines starting
with `Change-Id:` — the output is the filter of the input, so all other lines
are preserved unchanged and in their original order, and the length drops by
exactly the number N of Change-Id lines. -/
theorem remove_change_id_exact (patch_lines : List (List Char)) :
    remove_change_id true patch_lines =
      patch_lines.filter (fun l => !(l.take changeId.length == changeId)) ∧
    (remove_change_id true patch_lines).length +
      patch_lines.countP (fun l => l.take changeId.length == changeId) =
      patch_lines.length := by
  have hf : remove_change_id true patch_lines =
      patch_lines.filter (fun l => !(l.take changeId.length == changeId)) := by
    simpa [remove_change_id] using removeChangeIdLines_eq_filter patch_lines
  refine ⟨hf, ?_⟩
  rw [hf]
  exact length_filter_not_add_countP _ patch_lines

-- ------------------------------------------------------------------
-- kdt_utils.py: disk_mount and the exit-on-error command runner (C8)
-- ------------------------------------------------------------------

/-- Outcome of a `check=True` subprocess call: missing executable, failure with
captured output, or success. -/
inductive RunOutcome where
  | notFound
  | failed (output : String)
  | success

/-- `BashCommands.__run_current_command_check__` (reached through
`bash.mount` / `bash.umount`): prepends `sudo`, prints without executing in
debug mode, and otherwise runs with `check=True`; a missing executable or a
non-zero exit terminates the program, and every non-terminating path returns
`True` — the method can never return `False`. -/
def run_current_command_check (debug : Bool) (base arguments : List String)
    (sudoFlag : Bool) (outcome : RunOutcome) : Except String Bool :=
  let sudo_cmd := if sudoFlag then ["sudo"] else []
  let command := sudo_cmd ++ base ++ arguments
  if !(print_command debug (true, false)) then .ok true
  else
    match outcome with
    | .notFound => .error ("FAIL: " ++ String.intercalate " " command)
    | .failed output => .error output
    | .success => .ok true

/-- The six values produced by `parse_fdisk`. -/
structure FdiskParts where
  name1 : String
  start1 : Int
  sectors1 : Int
  name2 : String
  start2 : Int
  sectors2 : Int
deriving DecidableEq

/-- A mount or umount invocation issued by `disk_mount`, for tracking which
cleanup actions actually run. -/
inductive BashAct where
  | mountCmd (args : List String)
  | umountCmd (args : List String)
deriving DecidableEq

/-- `kdt_utils.disk_mount`: selects partition sources/offsets from the fdisk
parse, mounts the root (and, for two-partition media, the boot) partition, and
contains an unmount-root branch for a boot mount that returned `False`.  The
returned list records the mount/umount invocations actually issued. -/
def disk_mount (disk : String) (isfile : Bool) (mount_point : String)
    (pf : Except String FdiskParts)
    (rootOutcome bootOutcome umountOutcome : RunOutcome) (debug : Bool) :
    Except String (Bool × Bool) × List BashAct :=
  match pf with
  | .error e => (.error e, [])
  | .ok parts =>
      let sel : Option (List String × List String × String × Option String) :=
        if pyIn "/dev/" disk then
          if parts.start2 > 0 then some ([], [], parts.name2, some parts.name1)
          else some ([], [], parts.name1, none)
        else if isfile then
          if parts.start2 > 0 then
            some (["-o", "loop,offset=" ++ toString parts.start2 ++
                          ",sizelimit=" ++ toString parts.sectors2],
                  ["-o", "loop,offset=" ++ toString parts.start1 ++
                          ",sizelimit=" ++ toString parts.sectors1],
                  disk, some disk)
          else
            some (["-o", "loop,offset=" ++ toString parts.start1 ++
                          ",sizelimit=" ++ toString parts.sectors1], [], disk, none)
        else none
      match sel with
      | none => (.ok (false, false), [])
      | some (root_args, boot_args, root_src, boot_src) =>
          let rootMountArgs := root_args ++ [root_src, mount_point]
          let trace1 := [BashAct.mountCmd rootMountArgs]
          match run_current_command_check debug ["mount"] rootMountArgs true rootOutcome with
          | .error e => (.error e, trace1)
          | .ok root_ret =>
              match boot_src with
              | none => (.ok (root_ret, false), trace1)
              | some bsrc =>
                  let bootMountArgs := boot_args ++ [bsrc, mount_point ++ "/boot"]
                  let trace2 := trace1 ++ [BashAct.mountCmd bootMountArgs]
                  match run_current_command_check debug ["mount"] bootMountArgs true bootOutcome with
                  | .error e => (.error e, trace2)
                  | .ok boot_ret =>
                      if !boot_ret then
                        let trace3 := trace2 ++ [BashAct.umountCmd [root_src]]
                        match run_current_command_check debug ["umount"] [root_src] true umountOutcome with
                        | .error e => (.error e, trace3)
                        | .ok _ => (.ok (false, boot_ret), trace3)
                      else (.ok (root_ret, boot_ret), trace2)

/-- C8: on a two-partition `/dev/` disk whose root mount succeeds and whose
boot mount then fails, the command runner terminates the program with the
mount's error output from inside `bash.mount`; `disk_mount` neither reaches
its unmount-root branch (the trace holds the two mount calls and no umount)
nor returns `(False, False)` — the cleanup code is unreachable because
`__run_current_command_check__` can only exit or return `True`. -/
theorem disk_mount_boot_failure_no_cleanup :
    disk_mount "/dev/sdb" false "/tmp/mnt"
        (Except.ok ⟨"/dev/sdb1", 2097152, 133169152, "/dev/sdb2", 135266304, 15525216256⟩)
        RunOutcome.success (RunOutcome.failed "mount: /tmp/mnt/boot: mount failed.")
        RunOutcome.success false =
      (Except.error "mount: /tmp/mnt/boot: mount failed.",
       [BashAct.mountCmd ["/dev/sdb2", "/tmp/mnt"],
        BashAct.mountCmd ["/dev/sdb1", "/tmp/mnt/boot"]]) := rfl


-- ------------------------------------------------------------------
-- get_ip.py: host-alias rewrite and its idempotence (C5)
-- ------------------------------------------------------------------

/-- `readlines`-style split of a text: break after every newline, keeping the
terminators; the final piece may be unterminated. -/
def nlSplit : List Char → List (List Char)
  | [] => []
  | c :: rest =>
      match nlSplit rest with
      | [] => [[c]]
      | p :: ps => if c = '\n' then [c] :: p :: ps else (c :: p) :: ps

/-- The marker appended by `get_ip.py` to every host line it adds. -/
def gipMarker : List Char := "#gip added".toList

/-- A line survives `read_etc_hosts` unless it contains the marker. -/
def keepLine (l : List Char) : Bool := !(hasSub gipMarker l)

/-- `get_ip.read_etc_hosts`: the file contents with every marker line removed. -/
def read_etc_hosts (content : List Char) : List Char :=
  ((nlSplit content).filter keepLine).flatten

/-- The `f"{host_ip_addr} {hostname} #gip added\n"` line written by `get_ips`. -/
def gipEntry (hostname ip_addr : List Char) : List Char :=
  (ip_addr ++ [' '] ++ hostname ++ [' '] ++ gipMarker) ++ ['\n']

/-- Python `s[-2:]`. -/
def lastTwo (l : List Char) : List Char := l.drop (l.length - 2)

/-- `get_ip.get_ips`, parameterised by the matched hostname → address table:
strip previously added marker lines, ensure a separating newline, and append
one marker line per table entry (the result is what is copied over
`/etc/hosts`). -/
def get_ips (host_ip : List (List Char × List Char)) (content : List Char) : List Char :=
  (if lastTwo (read_etc_hosts content) ≠ ['\n', '\n']
   then read_etc_hosts content ++ ['\n']
   else read_etc_hosts content)
  ++ (host_ip.map (fun p => gipEntry p.1 p.2)).flatten

/-- A well-formed text line: non-empty, newline-terminated, no interior
newline. -/
def GoodLine (p : List Char) : Prop :=
  p ≠ [] ∧ p.getLast? = some '\n' ∧ ∀ c ∈ p.dropLast, c ≠ '\n'

theorem nlSplit_cons_eq (c : Char) (l : List Char) :
    nlSplit (c :: l) =
      match nlSplit l with
      | [] => [[c]]
      | p :: ps => if c = '\n' then [c] :: p :: ps else (c :: p) :: ps := rfl

theorem nlSplit_cons_cons (c : Char) (l q : List Char) (qs : List (List Char))
    (h : nlSplit l = q :: qs) :
    nlSplit (c :: l) = if c = '\n' then [c] :: q :: qs else (c :: q) :: qs := by
  rw [nlSplit_cons_eq, h]

theorem nlSplit_ne_nil (l : List Char) (h : l ≠ []) : nlSplit l ≠ [] := by
  match l with
  | [] => exact absurd rfl h
  | c :: rest =>
      cases hr : nlSplit rest with
      | nil => rw [nlSplit_cons_eq, hr]; simp
      | cons p ps =>
          rw [nlSplit_cons_cons c rest p ps hr]
          by_cases hcq : c = '\n' <;> simp [hcq]

theorem nlSplit_flatten (l : List Char) : (nlSplit l).flatten = l := by
  induction l with
  | nil => rfl
  | cons c rest ih =>
      cases hr : nlSplit rest with
      | nil =>
          have hrn : rest = [] := by rw [hr] at ih; simpa using ih.symm
          subst hrn
          rfl
      | cons p ps =>
          rw [hr] at ih
          simp only [List.flatten_cons] at ih
          rw [nlSplit_cons_cons c rest p ps hr]
          by_cases hcq : c = '\n'
          · subst hcq; simp [ih]
          · simp [hcq, ih]

theorem nlSplit_append (a b : List Char) (ha : a.getLast? = some '\n') :
    nlSplit (a ++ b) = nlSplit a ++ nlSplit b := by
  induction a with
  | nil => simp at ha
  | cons c a' ih =>
      cases a' with
      | nil =>
          have hcq : c = '\n' := by simpa using ha
          subst hcq
          cases hb : nlSplit b with
          | nil =>
              rw [show (['\n'] : List Char) ++ b = '\n' :: b from rfl,
                nlSplit_cons_eq, hb,
                show nlSplit ['\n'] = [['\n']] from rfl]
              rfl
          | cons p ps =>
              rw [show (['\n'] : List Char) ++ b = '\n' :: b from rfl,
                nlSplit_cons_cons '\n' b p ps hb,
                show nlSplit ['\n'] = [['\n']] from rfl]
              simp
      | cons d a'' =>
          have ha'' : (d :: a'').getLast? = some '\n' := by
            rw [List.getLast?_cons_cons] at ha; exact ha
          have hrec := ih ha''
          cases hq : nlSplit (d :: a'') with
          | nil => exact absurd hq (nlSplit_ne_nil _ (by simp))
          | cons q qs =>
              rw [hq] at hrec
              rw [List.cons_append,
                nlSplit_cons_cons c ((d :: a'') ++ b) q (qs ++ nlSplit b)
                  (by rw [hrec]; rfl),
                nlSplit_cons_cons c (d :: a'') q qs hq]
              by_cases hcq : c = '\n' <;> simp [hcq]

theorem nlSplit_goodLine (l : List Char) (hl : l.getLast? = some '\n') :
    ∀ p ∈ nlSplit l, GoodLine p := by
  induction l with
  | nil => simp at hl
  | cons c rest ih =>
      cases rest with
      | nil =>
          have hcq : c = '\n' := by simpa using hl
          subst hcq
          intro p hp
          rw [show nlSplit ['\n'] = [['\n']] from rfl, List.mem_singleton] at hp
          subst hp
          exact ⟨by simp, by simp, by simp⟩
      | cons d rest' =>
          have hrest : (d :: rest').getLast? = some '\n' := by
            rw [List.getLast?_cons_cons] at hl; exact hl
          have ihp := ih hrest
          intro p hp
          cases hq : nlSplit (d :: rest') with
          | nil => exact absurd hq (nlSplit_ne_nil _ (by simp))
          | cons q qs =>
              rw [hq] at ihp
              rw [nlSplit_cons_cons c (d :: rest') q qs hq] at hp
              by_cases hcq : c = '\n'
              · rw [if_pos hcq] at hp
                rcases List.mem_cons.mp hp with hp | hp
                · subst hp; subst hcq; exact ⟨by simp, by simp, by simp⟩
                · exact ihp p hp
              · rw [if_neg hcq] at hp
                rcases List.mem_cons.mp hp with hp | hp
                · have hq_good : GoodLine q := ihp q (by simp)
                  subst hp
                  obtain ⟨hqne, hqlast, hqmid⟩ := hq_good
                  obtain ⟨q0, qt, rfl⟩ := List.exists_cons_of_ne_nil hqne
                  refine ⟨by simp, ?_, ?_⟩
                  · rw [List.getLast?_cons_cons]; exact hqlast
                  · intro x hx
                    simp only [List.dropLast_cons₂] at hx
                    rcases List.mem_cons.mp hx with hx | hx
                    · subst hx; exact hcq
                    · exact hqmid x hx
                · exact ihp p (List.mem_cons_of_mem _ hp)

theorem nlSplit_single : ∀ (p : List Char), GoodLine p → nlSplit p = [p]
  | [], h => absurd rfl h.1
  | [c], h => by
      have : c = '\n' := by simpa using h.2.1
      subst this; rfl
  | c :: d :: rest, h => by
      have hc : c ≠ '\n' := by
        refine h.2.2 c ?_
        simp [List.dropLast_cons₂]
      have hgood : GoodLine (d :: rest) := by
        refine ⟨by simp, ?_, ?_⟩
        · have := h.2.1; rwa [List.getLast?_cons_cons] at this
        · intro x hx
          refine h.2.2 x ?_
          simp [List.dropLast_cons₂, hx]
      have hrec := nlSplit_single (d :: rest) hgood
      rw [nlSplit_cons_cons c (d :: rest) (d :: rest) [] hrec, if_neg hc]

theorem nlSplit_flatten_of_good (ps : List (List Char)) (h : ∀ p ∈ ps, GoodLine p) :
    nlSplit ps.flatten = ps := by
  induction ps with
  | nil => rfl
  | cons p ps ih =>
      have hp := h p (by simp)
      simp only [List.flatten_cons]
      rw [nlSplit_append p ps.flatten hp.2.1, nlSplit_single p hp,
        ih (fun q hq => h q (by simp [hq]))]
      simp

theorem flatten_goodLines_getLast (ps : List (List Char)) (hne : ps ≠ [])
    (h : ∀ p ∈ ps, GoodLine p) : ps.flatten.getLast? = some '\n' := by
  induction ps with
  | nil => exact absurd rfl hne
  | cons p ps ih =>
      cases hps : ps with
      | nil =>
          subst hps
          simpa using (h p (by simp)).2.1
      | cons q qs =>
          subst hps
          have hfl_ne : (q :: qs).flatten ≠ [] := by
            have hqne : q ≠ [] := (h q (by simp)).1
            simp only [List.flatten_cons]
            intro hcontra
            exact hqne (List.append_eq_nil.mp hcontra).1
          rw [List.flatten_cons, List.getLast?_append_of_ne_nil _ hfl_ne]
          exact ih (by simp) (fun r hr => h r (by simp [hr]))

theorem startsWith_append_self (pat t : List Char) : startsWith pat (pat ++ t) = true := by
  induction pat with
  | nil => rfl
  | cons c cs ih => simp [startsWith, ih]

theorem hasSub_of_startsWith (pat l : List Char) (h : startsWith pat l = true) :
    hasSub pat l = true := by
  cases l with
  | nil => simpa [hasSub] using h
  | cons c rest => simp [hasSub, h]

theorem hasSub_append_left (pat x t : List Char) (h : hasSub pat t = true) :
    hasSub pat (x ++ t) = true := by
  induction x with
  | nil => simpa
  | cons c cs ih => simp [hasSub, ih]

theorem hasSub_gipEntry (hostname ip_addr : List Char) :
    hasSub gipMarker (gipEntry hostname ip_addr) = true := by
  have hform : gipEntry hostname ip_addr =
      (ip_addr ++ [' '] ++ hostname ++ [' ']) ++ (gipMarker ++ ['\n']) := by
    simp [gipEntry]
  rw [hform]
  exact hasSub_append_left _ _ _ (hasSub_of_startsWith _ _ (startsWith_append_self _ _))

theorem goodLine_gipEntry (hostname ip_addr : List Char)
    (hh : '\n' ∉ hostname) (hi : '\n' ∉ ip_addr) :
    GoodLine (gipEntry hostname ip_addr) := by
  refine ⟨by simp [gipEntry], ?_, ?_⟩
  · rw [show gipEntry hostname ip_addr =
        (ip_addr ++ [' '] ++ hostname ++ [' '] ++ gipMarker) ++ ['\n'] from rfl]
    exact List.getLast?_concat _
  · intro c hc hceq
    subst hceq
    rw [show gipEntry hostname ip_addr =
        (ip_addr ++ [' '] ++ hostname ++ [' '] ++ gipMarker) ++ ['\n'] from rfl,
      List.dropLast_concat] at hc
    simp only [List.mem_append] at hc
    rcases hc with (((hc | hc) | hc) | hc) | hc
    · exact hi hc
    · simp at hc
    · exact hh hc
    · simp at hc
    · exact absurd hc (by decide)

theorem filter_idempotent {α : Type} (p : α → Bool) (l : List α) :
    (l.filter p).filter p = l.filter p := by simp

theorem lastTwo_append_two (w : List Char) (a b : Char) :
    lastTwo (w ++ [a, b]) = [a, b] := by
  rw [lastTwo]
  simp

theorem get_ips_eq (host_ip : List (List Char × List Char)) (content : List Char) :
    get_ips host_ip content =
      (if lastTwo (read_etc_hosts content) ≠ ['\n', '\n']
       then read_etc_hosts content ++ ['\n']
       else read_etc_hosts content)
      ++ (host_ip.map (fun p => gipEntry p.1 p.2)).flatten := rfl

/-- C5 amended: provided the host-alias file ends with a newline, still has at
least one non-marker line, and the table's hostnames and addresses contain no
newline characters, re-running `get_ips` on its own output reproduces that
output byte for byte: the marker lines are replaced, not duplicated. -/
theorem get_ips_idempotent (host_ip : List (List Char × List Char)) (content : List Char)
    (hterm : content.getLast? = some '\n')
    (hne : read_etc_hosts content ≠ [])
    (htab : ∀ p ∈ host_ip, '\n' ∉ p.1 ∧ '\n' ∉ p.2) :
    get_ips host_ip (get_ips host_ip content) = get_ips host_ip content := by
  have hgood_ps : ∀ p ∈ nlSplit content, GoodLine p := nlSplit_goodLine content hterm
  have hgood_f : ∀ p ∈ (nlSplit content).filter keepLine, GoodLine p :=
    fun p hp => hgood_ps p (List.mem_of_mem_filter hp)
  have hfne : (nlSplit content).filter keepLine ≠ [] := by
    intro h
    exact hne (by rw [read_etc_hosts, h]; rfl)
  have hcterm : (read_etc_hosts content).getLast? = some '\n' :=
    flatten_goodLines_getLast _ hfne hgood_f
  have hgood_E : ∀ e ∈ host_ip.map (fun p => gipEntry p.1 p.2), GoodLine e := by
    intro e he
    simp only [List.mem_map] at he
    obtain ⟨p, hp, rfl⟩ := he
    exact goodLine_gipEntry p.1 p.2 (htab p hp).1 (htab p hp).2
  have hfE : (host_ip.map (fun p => gipEntry p.1 p.2)).filter keepLine = [] := by
    refine List.filter_eq_nil_iff.mpr ?_
    intro e he
    simp only [List.mem_map] at he
    obtain ⟨p, _, rfl⟩ := he
    simp [keepLine, hasSub_gipEntry]
  have hsplit_E : nlSplit (host_ip.map (fun p => gipEntry p.1 p.2)).flatten =
      host_ip.map (fun p => gipEntry p.1 p.2) :=
    nlSplit_flatten_of_good _ hgood_E
  have hsplit_c : nlSplit (read_etc_hosts content) = (nlSplit content).filter keepLine :=
    nlSplit_flatten_of_good _ hgood_f
  have hflat_c : ((nlSplit content).filter keepLine).flatten = read_etc_hosts content := rfl
  have hfilter_f : ((nlSplit content).filter keepLine).filter keepLine =
      (nlSplit content).filter keepLine := filter_idempotent _ _
  have hdecomp : (read_etc_hosts content).dropLast ++ ['\n'] = read_etc_hosts content := by
    have h1 := List.dropLast_append_getLast hne
    have h2 : (read_etc_hosts content).getLast hne = '\n' := by
      have h3 := List.getLast?_eq_getLast_of_ne_nil hne
      rw [hcterm] at h3
      exact (Option.some_inj.mp h3).symm
    rw [h2] at h1
    exact h1
  by_cases hcond : lastTwo (read_etc_hosts content) ≠ ['\n', '\n']
  · -- a separating newline is added on the first run
    have hout1 : get_ips host_ip content =
        (read_etc_hosts content ++ ['\n']) ++
          (host_ip.map (fun p => gipEntry p.1 p.2)).flatten := by
      rw [get_ips_eq, if_pos hcond]
    have hread1 : read_etc_hosts (get_ips host_ip content) =
        read_etc_hosts content ++ ['\n'] := by
      rw [hout1, read_etc_hosts, nlSplit_append _ _ (by simp),
        nlSplit_append _ ['\n'] hcterm, hsplit_c, hsplit_E,
        show nlSplit ['\n'] = [['\n']] from rfl,
        List.filter_append, List.filter_append, hfilter_f, hfE,
        show List.filter keepLine [['\n']] = [['\n']] from by decide]
      simp [List.flatten_append, hflat_c]
    have hlast1 : lastTwo (read_etc_hosts content ++ ['\n']) = ['\n', '\n'] := by
      conv_lhs => rw [← hdecomp, List.append_assoc]
      exact lastTwo_append_two _ '\n' '\n'
    rw [get_ips_eq host_ip (get_ips host_ip content), hread1,
      if_neg (by simp [hlast1]), hout1]
  · -- the cleaned content already ends in a blank line; nothing is added
    have hout1 : get_ips host_ip content =
        read_etc_hosts content ++ (host_ip.map (fun p => gipEntry p.1 p.2)).flatten := by
      rw [get_ips_eq, if_neg hcond]
    have hread1 : read_etc_hosts (get_ips host_ip content) = read_etc_hosts content := by
      rw [hout1, read_etc_hosts, nlSplit_append _ _ hcterm, hsplit_c, hsplit_E,
        List.filter_append, hfilter_f, hfE]
      simpa using hflat_c
    rw [get_ips_eq host_ip (get_ips host_ip content), hread1, if_neg hcond, hout1]

/-- C5 amended witness: a newline-terminated hosts file with one device in the
table reaches a fixed point after one run. -/
theorem get_ips_idempotent_witness :
    get_ips [("rpi".toList, "192.168.0.7".toList)]
        (get_ips [("rpi".toList, "192.168.0.7".toList)] "127.0.0.1 localhost\n".toList) =
      get_ips [("rpi".toList, "192.168.0.7".toList)] "127.0.0.1 localhost\n".toList :=
  get_ips_idempotent [("rpi".toList, "192.168.0.7".toList)]
    "127.0.0.1 localhost\n".toList (by decide) (by decide) (by decide)

/-- C5 counterexample: on a hosts file that does not end in a newline the
second run is not byte-identical to the first — the first run appends the
missing newline, and the second run, seeing a cleaned content that still does
not end in a blank line, inserts yet another newline. -/
theorem get_ips_not_idempotent_counterexample :
    get_ips [("rpi".toList, "192.168.0.7".toList)]
        (get_ips [("rpi".toList, "192.168.0.7".toList)] "127.0.0.1 localhost".toList) ≠
      get_ips [("rpi".toList, "192.168.0.7".toList)] "127.0.0.1 localhost".toList := by
  decide

-- ------------------------------------------------------------------
-- kdt_utils.py / parse_fdisk: partition offsets from fdisk -l output (C6)
-- ------------------------------------------------------------------

/-- Python `str.split(sep)` for a one-character separator: pieces between
separators, empty pieces included (`"".split(sep) == [""]`). -/
def pySplitChar (sep : Char) : List Char → List (List Char)
  | [] => [[]]
  | c :: rest =>
      match pySplitChar sep rest with
      | [] => [[]]
      | p :: ps => if c = sep then [] :: p :: ps else (c :: p) :: ps

/-- Python `str.index(pat)` as an option (None models the `ValueError`). -/
def findSub (pat : List Char) : List Char → Option Nat
  | [] => if startsWith pat [] then some 0 else none
  | c :: rest =>
      if startsWith pat (c :: rest) then some 0
      else (findSub pat rest).map (fun k => k + 1)

/-- Python `str.split()` restricted to spaces: fields between runs of spaces,
no empty fields. -/
def wsSplit : List Char → List (List Char)
  | [] => []
  | c :: rest =>
      if c = ' ' then wsSplit rest
      else
        match rest with
        | [] => [[c]]
        | d :: _ =>
            if d = ' ' then [c] :: wsSplit rest
            else
              match wsSplit rest with
              | [] => [[c]]
              | f :: fs => (c :: f) :: fs

/-- Python `' '.join(line.split()).split(' ')`: the whitespace-collapsed
fields, with the empty-line case giving `[""]`. -/
def joinSplitFields (l : List Char) : List (List Char) :=
  match wsSplit l with
  | [] => [[]]
  | fs => fs

/-- Value of a decimal digit list. -/
def digitsToNat (ds : List Char) : Nat :=
  ds.foldl (fun acc c => acc * 10 + (c.toNat - '0'.toNat)) 0

/-- Python `int(s)`: strip spaces, optional minus sign, decimal digits;
anything else raises `ValueError`. -/
def pyInt (s : List Char) : Except String Int :=
  let t := ((s.dropWhile (fun c => c == ' ')).reverse.dropWhile
    (fun c => c == ' ')).reverse
  match t with
  | '-' :: ds =>
      if ds ≠ [] ∧ ds.all Char.isDigit then .ok (-(digitsToNat ds : Int))
      else .error "ValueError: invalid literal for int"
  | ds =>
      if ds ≠ [] ∧ ds.all Char.isDigit then .ok (digitsToNat ds : Int)
      else .error "ValueError: invalid literal for int"

/-- Python index normalisation for slicing: negative indices count from the
end, out-of-range indices are clamped. -/
def pySliceIdx (n : Nat) (i : Int) : Nat :=
  (if i < 0 then max ((n : Int) + i) 0 else min i n).toNat

/-- Python slicing `l[a:b]`. -/
def pySlice (l : List Char) (a b : Int) : List Char :=
  (l.take (pySliceIdx l.length b)).drop (pySliceIdx l.length a)

/-- The running state of the `parse_fdisk` loop.  `unit = none` models the
initial Python integer `0` (the Units line not seen yet); after the Units line
it holds the sliced text. -/
structure FdiskScan where
  unit : Option (List Char)
  name1 : List Char
  start1 : Int
  sectors1 : Int
  name2 : List Char
  start2 : Int
  sectors2 : Int
deriving DecidableEq

/-- The Units-line slice `line[line.index("= ") + 2 : line.index("bytes") - 1]`. -/
def parseUnitsLine (line : List Char) : Except String (List Char) :=
  match findSub "= ".toList line with
  | none => .error "ValueError: substring not found"
  | some i =>
      match findSub "bytes".toList line with
      | none => .error "ValueError: substring not found"
      | some j => .ok (pySlice line ((i : Int) + 2) ((j : Int) - 1))

/-- `int(unit)` in the partition rows: the initial Python integer `0` stays
`0`; a seen Units-line slice goes through `int(...)`. -/
def unitToInt (unitSt : Option (List Char)) : Except String Int :=
  match unitSt with
  | none => Except.ok 0
  | some us => pyInt us

/-- A partition row: unpack the whitespace-collapsed fields into
`name, start, sectors` and convert `start * unit`, `sectors * unit`. -/
def parsePartLine (line : List Char) (unitSt : Option (List Char)) :
    Except String (List Char × Int × Int) :=
  match joinSplitFields line with
  | [n, s, c] =>
      match pyInt s with
      | .error e => .error e
      | .ok sv =>
          match unitToInt unitSt with
          | .error e => .error e
          | .ok uv =>
              match pyInt c with
              | .error e => .error e
              | .ok cv => .ok (n, sv * uv, cv * uv)
  | _ => .error "ValueError: unpack"

/-- One iteration of the `parse_fdisk` loop: the three `in`-tests applied in
order to the current line, each updating the scan state. -/
def fdiskStep (img : List Char) (st : FdiskScan) (line : List Char) :
    Except String FdiskScan :=
  match (if hasSub "Units:".toList line then
           match parseUnitsLine line with
           | .error e => .error e
           | .ok u => .ok { st with unit := some u }
         else .ok st : Except String FdiskScan) with
  | .error e => .error e
  | .ok st1 =>
      match (if hasSub (img ++ ['1']) line then
               match parsePartLine line st1.unit with
               | .error e => .error e
               | .ok r => .ok { st1 with name1 := r.1, start1 := r.2.1, sectors1 := r.2.2 }
             else .ok st1 : Except String FdiskScan) with
      | .error e => .error e
      | .ok st2 =>
          if hasSub (img ++ ['2']) line then
            match parsePartLine line st2.unit with
            | .error e => .error e
            | .ok r => .ok { st2 with name2 := r.1, start2 := r.2.1, sectors2 := r.2.2 }
          else .ok st2

/-- The `for line in fdisk.split('\n')` loop. -/
def fdiskScanLines (img : List Char) : FdiskScan → List (List Char) →
    Except String FdiskScan
  | st, [] => .ok st
  | st, line :: rest =>
      match fdiskStep img st line with
      | .error e => .error e
      | .ok st' => fdiskScanLines img st' rest

/-- `kdt_utils.parse_fdisk` on the text produced by `fdisk -l` (`valid` is the
success flag returned by the command runner): scan every line, then fail when
no Units line was seen or partition 1 has a zero offset or length. -/
def parse_fdisk (valid : Bool) (fdisk img : List Char) : Except String FdiskParts :=
  if !valid then .ok ⟨"", 0, 0, "", 0, 0⟩
  else
    match fdiskScanLines img ⟨none, [], 0, 0, [], 0, 0⟩ (pySplitChar '\n' fdisk) with
    | .error e => .error e
    | .ok st =>
        if st.unit = none ∨ st.start1 = 0 ∨ st.sectors1 = 0 then
          .error ("Error! Fail to parse fdisk output from image " ++ String.mk img)
        else
          .ok ⟨String.mk st.name1, st.start1, st.sectors1,
               String.mk st.name2, st.start2, st.sectors2⟩

/-- An fdisk-style Units line showing the given unit-size text. -/
def unitsLine (su : List Char) : List Char :=
  "Units: sectors of 1 * 512 ".toList ++ "= ".toList ++ su ++ " bytes".toList

/-- An fdisk-style partition row: device name, start sector, sector count. -/
def partLine (img : List Char) (d : Char) (ss cc : List Char) : List Char :=
  (img ++ [d]) ++ ' ' :: (ss ++ ' ' :: cc)

/-- A two-partition fdisk listing. -/
def fdiskListing (img su s1 c1 s2 c2 : List Char) : List Char :=
  unitsLine su ++ '\n' :: (partLine img '1' s1 c1 ++ '\n' :: partLine img '2' s2 c2)

theorem pySplitChar_cons_eq (sep c : Char) (l : List Char) :
    pySplitChar sep (c :: l) =
      match pySplitChar sep l with
      | [] => [[]]
      | p :: ps => if c = sep then [] :: p :: ps else (c :: p) :: ps := rfl

theorem pySplitChar_ne_nil (sep : Char) (l : List Char) : pySplitChar sep l ≠ [] := by
  cases l with
  | nil => simp [pySplitChar]
  | cons c rest =>
      rw [pySplitChar_cons_eq]
      cases pySplitChar sep rest with
      | nil => simp
      | cons p ps => by_cases h : c = sep <;> simp [h]

theorem pySplitChar_no_sep (sep : Char) (l : List Char) (h : sep ∉ l) :
    pySplitChar sep l = [l] := by
  induction l with
  | nil => rfl
  | cons c rest ih =>
      have hc : c ≠ sep := fun e => h (by simp [e])
      have hr := ih (fun hm => h (List.mem_cons_of_mem _ hm))
      rw [pySplitChar_cons_eq, hr]
      simp [hc]

theorem pySplitChar_append (sep : Char) (a b : List Char) (ha : sep ∉ a) :
    pySplitChar sep (a ++ sep :: b) = a :: pySplitChar sep b := by
  induction a with
  | nil =>
      simp only [List.nil_append]
      rw [pySplitChar_cons_eq]
      cases hb : pySplitChar sep b with
      | nil => exact absurd hb (pySplitChar_ne_nil sep b)
      | cons p ps => simp
  | cons c a' ih =>
      have hc : c ≠ sep := fun e => ha (by simp [e])
      have hr := ih (fun hm => ha (List.mem_cons_of_mem _ hm))
      rw [List.cons_append, pySplitChar_cons_eq, hr]
      simp [hc]

theorem startsWith_self (pat : List Char) : startsWith pat pat = true := by
  induction pat with
  | nil => rfl
  | cons c cs ih => simp [startsWith, ih]

theorem startsWith_nil_iff (pat : List Char) : startsWith pat [] = true ↔ pat = [] := by
  cases pat <;> simp [startsWith]

theorem findSub_cons (pat : List Char) (c : Char) (rest : List Char) :
    findSub pat (c :: rest) =
      if startsWith pat (c :: rest) then some 0
      else (findSub pat rest).map (fun k => k + 1) := rfl

theorem findSub_of_startsWith (pat l : List Char) (hpat : pat ≠ [])
    (h : startsWith pat l = true) : findSub pat l = some 0 := by
  cases l with
  | nil => exact absurd ((startsWith_nil_iff pat).mp h) hpat
  | cons c rest => simp [findSub_cons, h]

theorem findSub_append_of_notMem (pat a b : List Char) (c0 : Char)
    (hc : pat.head? = some c0) (h : c0 ∉ a) :
    findSub pat (a ++ b) = (findSub pat b).map (fun k => k + a.length) := by
  obtain ⟨pat', rfl⟩ : ∃ pat', pat = c0 :: pat' := by
    cases pat with
    | nil => simp at hc
    | cons p ps =>
        refine ⟨ps, ?_⟩
        have hp : p = c0 := by simpa using hc
        rw [hp]
  induction a with
  | nil => cases hfb : findSub (c0 :: pat') b <;> simp [hfb]
  | cons x a' ih =>
      have hxne : (c0 == x) = false := by
        refine beq_eq_false_iff_ne.mpr ?_
        intro e
        exact h (by rw [e]; exact List.mem_cons_self x a')
      have hx : startsWith (c0 :: pat') (x :: (a' ++ b)) = false := by
        simp [startsWith, hxne]
      rw [List.cons_append, findSub_cons, if_neg (by simp [hx]),
        ih (fun hm => h (List.mem_cons_of_mem _ hm))]
      cases hfb : findSub (c0 :: pat') b <;> simp [hfb] <;> omega

theorem wsSplit_cons_eq (c : Char) (rest : List Char) :
    wsSplit (c :: rest) =
      if c = ' ' then wsSplit rest
      else
        match rest with
        | [] => [[c]]
        | d :: _ =>
            if d = ' ' then [c] :: wsSplit rest
            else
              match wsSplit rest with
              | [] => [[c]]
              | f :: fs => (c :: f) :: fs := rfl

theorem wsSplit_cons_cons (c d : Char) (rest : List Char) (hc : ¬ c = ' ') :
    wsSplit (c :: d :: rest) =
      if d = ' ' then [c] :: wsSplit (d :: rest)
      else
        match wsSplit (d :: rest) with
        | [] => [[c]]
        | f :: fs => (c :: f) :: fs := by
  rw [wsSplit_cons_eq, if_neg hc]

theorem wsSplit_single (a : List Char) (hne : a ≠ []) (hsp : ' ' ∉ a) :
    wsSplit a = [a] := by
  induction a with
  | nil => exact absurd rfl hne
  | cons c a' ih =>
      have hc : ¬(c = ' ') := fun e => hsp (by simp [e])
      cases a' with
      | nil => simp [wsSplit, hc]
      | cons d a'' =>
          have hd : ¬(d = ' ') := fun e => hsp (by simp [e])
          have hr := ih (by simp) (fun hm => hsp (List.mem_cons_of_mem _ hm))
          rw [wsSplit_cons_cons c d a'' hc, if_neg hd, hr]

theorem wsSplit_append_sep (a b : List Char) (hne : a ≠ []) (hsp : ' ' ∉ a) :
    wsSplit (a ++ ' ' :: b) = a :: wsSplit b := by
  induction a with
  | nil => exact absurd rfl hne
  | cons c a' ih =>
      have hc : ¬(c = ' ') := fun e => hsp (by simp [e])
      cases a' with
      | nil => simp [wsSplit, hc]
      | cons d a'' =>
          have hd : ¬(d = ' ') := fun e => hsp (by simp [e])
          have hr := ih (by simp) (fun hm => hsp (List.mem_cons_of_mem _ hm))
          have hr' : wsSplit (d :: (a'' ++ ' ' :: b)) = (d :: a'') :: wsSplit b := by
            rw [← List.cons_append]; exact hr
          rw [List.cons_append, List.cons_append,
            wsSplit_cons_cons c d (a'' ++ ' ' :: b) hc, if_neg hd, hr']

theorem not_mem_of_all_digit (s : List Char) (hs : s.all Char.isDigit = true)
    (c : Char) (hc : Char.isDigit c = false) : c ∉ s := by
  intro hmem
  rw [List.all_eq_true] at hs
  have h2 := hs c hmem
  rw [hc] at h2
  exact absurd h2 (by simp)

theorem not_mem_append_chars {c : Char} {a b : List Char} (ha : c ∉ a) (hb : c ∉ b) :
    c ∉ a ++ b := by
  intro h
  rcases List.mem_append.mp h with h | h
  · exact ha h
  · exact hb h

theorem pySliceIdx_nonneg (n : Nat) (m : Nat) (h : m ≤ n) :
    pySliceIdx n (m : Int) = m := by
  rw [pySliceIdx, if_neg (by omega), min_eq_left (by omega)]
  omega

theorem pySlice_extract (pre mid post : List Char) :
    pySlice (pre ++ (mid ++ post)) (pre.length : Int)
      ((pre.length : Int) + (mid.length : Int)) = mid := by
  rw [pySlice]
  have hlen : (pre ++ (mid ++ post)).length =
      pre.length + mid.length + post.length := by
    simp [List.length_append]
    omega
  rw [hlen]
  rw [pySliceIdx_nonneg _ _ (by omega)]
  rw [show (pre.length : Int) + (mid.length : Int) = ((pre.length + mid.length : Nat) : Int) from by push_cast; ring]
  rw [pySliceIdx_nonneg _ _ (by omega)]
  rw [← List.append_assoc]
  rw [show pre.length + mid.length = (pre ++ mid).length from (List.length_append _ _).symm]
  rw [List.take_left]
  simp

theorem pyInt_ok_ne_nil (s : List Char) (v : Int) (h : pyInt s = Except.ok v) :
    s ≠ [] := by
  intro e
  subst e
  rw [show pyInt [] = Except.error "ValueError: invalid literal for int" from rfl] at h
  exact Except.noConfusion h

theorem not_mem_unitsLine {x : Char} {su : List Char}
    (h1 : x ∉ "Units: sectors of 1 * 512 ".toList) (h2 : x ∉ "= ".toList)
    (h3 : x ∉ su) (h4 : x ∉ " bytes".toList) : x ∉ unitsLine su := by
  rw [unitsLine]
  exact not_mem_append_chars (not_mem_append_chars (not_mem_append_chars h1 h2) h3) h4

theorem not_mem_partLine {x : Char} {img : List Char} {d : Char} {ss cc : List Char}
    (himg : x ∉ img) (hd : x ≠ d) (hsp : x ≠ ' ') (hss : x ∉ ss) (hcc : x ∉ cc) :
    x ∉ partLine img d ss cc := by
  rw [partLine]
  intro h
  rcases List.mem_append.mp h with h | h
  · rcases List.mem_append.mp h with h | h
    · exact himg h
    · simp at h; exact hd h
  · rcases List.mem_cons.mp h with h | h
    · exact hsp h
    · rcases List.mem_append.mp h with h | h
      · exact hss h
      · rcases List.mem_cons.mp h with h | h
        · exact hsp h
        · exact hcc h

/-- C6: on a two-partition fdisk listing whose Units line shows unit size `u`
and whose partition rows show start sectors `v1`, `v2` and sector counts `k1`,
`k2` for devices `img1` and `img2`, `parse_fdisk` returns exactly the byte
offsets `v1*u`, `v2*u` and byte lengths `k1*u`, `k2*u`, together with the two
device names.  The hypotheses say the listing is well formed: the numeric
fields are plain decimal texts denoting those values, the device name holds no
space or newline, no row is mistaken for another (`hasSub` side conditions),
and partition 1's offset and length are non-zero (otherwise the parser exits). -/
theorem parse_fdisk_two_partitions
    (img su s1 c1 s2 c2 : List Char) (u v1 k1 v2 k2 : Int)
    (hpu : pyInt su = Except.ok u)
    (hp1 : pyInt s1 = Except.ok v1) (hq1 : pyInt c1 = Except.ok k1)
    (hp2 : pyInt s2 = Except.ok v2) (hq2 : pyInt c2 = Except.ok k2)
    (hdsu : su.all Char.isDigit = true)
    (hds1 : s1.all Char.isDigit = true) (hdc1 : c1.all Char.isDigit = true)
    (hds2 : s2.all Char.isDigit = true) (hdc2 : c2.all Char.isDigit = true)
    (himg_sp : ' ' ∉ img) (himg_nl : '\n' ∉ img)
    (hu11 : hasSub (img ++ ['1']) (unitsLine su) = false)
    (hu12 : hasSub (img ++ ['2']) (unitsLine su) = false)
    (hU2 : hasSub "Units:".toList (partLine img '1' s1 c1) = false)
    (hU3 : hasSub "Units:".toList (partLine img '2' s2 c2) = false)
    (h12 : hasSub (img ++ ['2']) (partLine img '1' s1 c1) = false)
    (h21 : hasSub (img ++ ['1']) (partLine img '2' s2 c2) = false)
    (hv1 : v1 * u ≠ 0) (hk1 : k1 * u ≠ 0) :
    parse_fdisk true (fdiskListing img su s1 c1 s2 c2) img =
      Except.ok ⟨String.mk (img ++ ['1']), v1 * u, k1 * u,
                 String.mk (img ++ ['2']), v2 * u, k2 * u⟩ := by
  -- characters of the numeric fields
  have hnl_su : '\n' ∉ su := not_mem_of_all_digit su hdsu '\n' (by decide)
  have hnl_s1 : '\n' ∉ s1 := not_mem_of_all_digit s1 hds1 '\n' (by decide)
  have hnl_c1 : '\n' ∉ c1 := not_mem_of_all_digit c1 hdc1 '\n' (by decide)
  have hnl_s2 : '\n' ∉ s2 := not_mem_of_all_digit s2 hds2 '\n' (by decide)
  have hnl_c2 : '\n' ∉ c2 := not_mem_of_all_digit c2 hdc2 '\n' (by decide)
  have hsp_s1 : ' ' ∉ s1 := not_mem_of_all_digit s1 hds1 ' ' (by decide)
  have hsp_c1 : ' ' ∉ c1 := not_mem_of_all_digit c1 hdc1 ' ' (by decide)
  have hsp_s2 : ' ' ∉ s2 := not_mem_of_all_digit s2 hds2 ' ' (by decide)
  have hsp_c2 : ' ' ∉ c2 := not_mem_of_all_digit c2 hdc2 ' ' (by decide)
  have hne_s1 : s1 ≠ [] := pyInt_ok_ne_nil s1 v1 hp1
  have hne_c1 : c1 ≠ [] := pyInt_ok_ne_nil c1 k1 hq1
  have hne_s2 : s2 ≠ [] := pyInt_ok_ne_nil s2 v2 hp2
  have hne_c2 : c2 ≠ [] := pyInt_ok_ne_nil c2 k2 hq2
  -- the three lines of the listing
  have hnl_units : '\n' ∉ unitsLine su :=
    not_mem_unitsLine (by decide) (by decide) hnl_su (by decide)
  have hnl_p1 : '\n' ∉ partLine img '1' s1 c1 :=
    not_mem_partLine himg_nl (by decide) (by decide) hnl_s1 hnl_c1
  have hnl_p2 : '\n' ∉ partLine img '2' s2 c2 :=
    not_mem_partLine himg_nl (by decide) (by decide) hnl_s2 hnl_c2
  have hlines : pySplitChar '\n' (fdiskListing img su s1 c1 s2 c2) =
      [unitsLine su, partLine img '1' s1 c1, partLine img '2' s2 c2] := by
    rw [fdiskListing, pySplitChar_append '\n' _ _ hnl_units,
      pySplitChar_append '\n' _ _ hnl_p1, pySplitChar_no_sep '\n' _ hnl_p2]
  -- positive substring tests
  have hshapeU : unitsLine su =
      "Units: sectors of 1 * 512 ".toList ++
        ("= ".toList ++ (su ++ " bytes".toList)) := by
    rw [unitsLine]
    simp [List.append_assoc]
  have hU1 : hasSub "Units:".toList (unitsLine su) = true := by
    rw [hshapeU,
      show "Units: sectors of 1 * 512 ".toList =
        "Units:".toList ++ " sectors of 1 * 512 ".toList from by decide,
      List.append_assoc]
    exact hasSub_of_startsWith _ _ (startsWith_append_self _ _)
  have hP1 : hasSub (img ++ ['1']) (partLine img '1' s1 c1) = true := by
    rw [partLine]
    exact hasSub_of_startsWith _ _ (startsWith_append_self _ _)
  have hP2 : hasSub (img ++ ['2']) (partLine img '2' s2 c2) = true := by
    rw [partLine]
    exact hasSub_of_startsWith _ _ (startsWith_append_self _ _)
  -- the Units-line slice
  have hfEq : findSub "= ".toList (unitsLine su) = some 26 := by
    rw [hshapeU]
    rw [findSub_append_of_notMem _ _ _ '=' (by decide) (by decide)]
    rw [findSub_of_startsWith _ _ (by decide) (startsWith_append_self _ _)]
    rfl
  have hlen28 : ("Units: sectors of 1 * 512 ".toList ++ "= ".toList).length = 28 := by
    decide
  have hfBytes : findSub "bytes".toList (unitsLine su) = some (su.length + 29) := by
    have hshape : unitsLine su =
        ("Units: sectors of 1 * 512 ".toList ++ "= ".toList) ++
          (su ++ ([' '] ++ "bytes".toList)) := by
      rw [unitsLine, show " bytes".toList = [' '] ++ "bytes".toList from by decide]
      simp [List.append_assoc]
    rw [hshape]
    rw [findSub_append_of_notMem _ _ _ 'b' (by decide) (by decide)]
    rw [findSub_append_of_notMem _ _ _ 'b' (by decide)
      (not_mem_of_all_digit su hdsu 'b' (by decide))]
    rw [findSub_append_of_notMem _ _ _ 'b' (by decide) (by decide)]
    rw [findSub_of_startsWith _ _ (by decide) (startsWith_self _)]
    simp [hlen28]
    omega
  have hparseU : parseUnitsLine (unitsLine su) = Except.ok su := by
    simp only [parseUnitsLine, hfEq, hfBytes]
    congr 1
    have hshape2 : unitsLine su =
        ("Units: sectors of 1 * 512 ".toList ++ "= ".toList) ++
          (su ++ " bytes".toList) := by
      rw [unitsLine]
      simp [List.append_assoc]
    rw [hshape2]
    have hx := pySlice_extract ("Units: sectors of 1 * 512 ".toList ++ "= ".toList)
      su (" bytes".toList)
    rw [hlen28] at hx
    convert hx using 2
    all_goals (push_cast; omega)
  -- the two partition rows
  have hws1 : wsSplit (partLine img '1' s1 c1) = [img ++ ['1'], s1, c1] := by
    rw [partLine,
      wsSplit_append_sep _ _ (by simp) (not_mem_append_chars himg_sp (by decide)),
      wsSplit_append_sep _ _ hne_s1 hsp_s1, wsSplit_single _ hne_c1 hsp_c1]
  have hws2 : wsSplit (partLine img '2' s2 c2) = [img ++ ['2'], s2, c2] := by
    rw [partLine,
      wsSplit_append_sep _ _ (by simp) (not_mem_append_chars himg_sp (by decide)),
      wsSplit_append_sep _ _ hne_s2 hsp_s2, wsSplit_single _ hne_c2 hsp_c2]
  have hfields1 : joinSplitFields (partLine img '1' s1 c1) = [img ++ ['1'], s1, c1] := by
    simp only [joinSplitFields, hws1]
  have hfields2 : joinSplitFields (partLine img '2' s2 c2) = [img ++ ['2'], s2, c2] := by
    simp only [joinSplitFields, hws2]
  have hparse1 : parsePartLine (partLine img '1' s1 c1) (some su) =
      Except.ok (img ++ ['1'], v1 * u, k1 * u) := by
    simp only [parsePartLine, hfields1, hp1, hq1, unitToInt, hpu]
  have hparse2 : parsePartLine (partLine img '2' s2 c2) (some su) =
      Except.ok (img ++ ['2'], v2 * u, k2 * u) := by
    simp only [parsePartLine, hfields2, hp2, hq2, unitToInt, hpu]
  -- the three loop iterations
  have hstep1 : fdiskStep img ⟨none, [], 0, 0, [], 0, 0⟩ (unitsLine su) =
      Except.ok ⟨some su, [], 0, 0, [], 0, 0⟩ := by
    simp only [fdiskStep]
    rw [hU1, hu11, hu12]
    simp [hparseU]
  have hstep2 : fdiskStep img ⟨some su, [], 0, 0, [], 0, 0⟩ (partLine img '1' s1 c1) =
      Except.ok ⟨some su, img ++ ['1'], v1 * u, k1 * u, [], 0, 0⟩ := by
    simp only [fdiskStep]
    rw [hU2, hP1, h12]
    simp [hparse1]
  have hstep3 : fdiskStep img ⟨some su, img ++ ['1'], v1 * u, k1 * u, [], 0, 0⟩
      (partLine img '2' s2 c2) =
      Except.ok ⟨some su, img ++ ['1'], v1 * u, k1 * u, img ++ ['2'], v2 * u, k2 * u⟩ := by
    simp only [fdiskStep]
    rw [hU3, hP2, h21]
    simp [hparse2]
  have hscan : fdiskScanLines img ⟨none, [], 0, 0, [], 0, 0⟩
      [unitsLine su, partLine img '1' s1 c1, partLine img '2' s2 c2] =
      Except.ok ⟨some su, img ++ ['1'], v1 * u, k1 * u, img ++ ['2'], v2 * u, k2 * u⟩ := by
    simp only [fdiskScanLines, hstep1, hstep2, hstep3]
  -- assemble
  rw [parse_fdisk]
  simp only [Bool.not_true, Bool.false_eq_true, if_false, hlines, hscan]
  rw [if_neg (by simp [hv1, hk1])]

/-- C6 witness: a concrete 512-byte-unit listing for `/dev/sdb` with two
partitions at sectors 2048 and 528384. -/
theorem parse_fdisk_two_partitions_witness :
    parse_fdisk true
        (fdiskListing "/dev/sdb".toList "512".toList "2048".toList "526336".toList
          "528384".toList "30253056".toList) "/dev/sdb".toList =
      Except.ok ⟨String.mk ("/dev/sdb".toList ++ ['1']), 2048 * 512, 526336 * 512,
                 String.mk ("/dev/sdb".toList ++ ['2']), 528384 * 512, 30253056 * 512⟩ :=
  parse_fdisk_two_partitions "/dev/sdb".toList "512".toList "2048".toList "526336".toList
    "528384".toList "30253056".toList 512 2048 526336 528384 30253056
    rfl rfl rfl rfl rfl
    (by decide) (by decide) (by decide) (by decide) (by decide)
    (by decide) (by decide)
    (by decide) (by decide) (by decide) (by decide) (by decide) (by decide)
    (by decide) (by decide)
